import Mathlib

/-!
Verification of the HistorySidepanel content-metrics extraction pipeline.

The definitions below are a shallow embedding of the TypeScript sources:
`urlNormalizer.ts` (URLNormalizer, NavigationHandler), the LinkAnalyzer,
`imageAnalyzer.ts` (ImageAnalyzer) and `textAnalyzer.ts` (TextAnalyzer).
Strings are modeled as Lean strings (JS string lengths are modeled as
code-point counts; all concrete inputs used below lie in the Basic
Multilingual Plane, where the two notions of length agree).

The browser builtin `new URL(...)` is modeled by `parseURL`, a parser for
a clean ASCII fragment of the WHATWG URL grammar:
`scheme://[userinfo@]host[:port][/path][?query][#fragment]`.  On this
fragment it agrees with the browser: the scheme and hostname are
ASCII-lowercased, userinfo/port/query/fragment are parsed off, a special
scheme (http/https) gets the path `/` when none is present, and inputs
outside the fragment are parse failures (`none`), which plays the role of
the `TypeError` thrown by `new URL` and caught by the callers.
-/

/-- One ASCII character lowercased, as `String.prototype.toLowerCase` acts on
the ASCII range (all strings handled below are ASCII, since `new URL`
percent-encodes its components). -/
def lowerChar (c : Char) : Char :=
  if 65 ≤ c.toNat ∧ c.toNat ≤ 90 then Char.ofNat (c.toNat + 32) else c

/-- Lowercase a character list. -/
def lowerStr (l : List Char) : List Char := l.map lowerChar

/-- An ASCII letter, by code point. -/
def isAlphaChar (c : Char) : Bool :=
  (decide (65 ≤ c.toNat) && decide (c.toNat ≤ 90)) ||
  (decide (97 ≤ c.toNat) && decide (c.toNat ≤ 122))

/-- An ASCII digit, by code point. -/
def isDigitChar (c : Char) : Bool :=
  decide (48 ≤ c.toNat) && decide (c.toNat ≤ 57)

/-- Characters allowed in a URL scheme (RFC 3986 / WHATWG):
letters, digits, `+` (43), `-` (45), `.` (46). -/
def isSchemeChar (c : Char) : Bool :=
  isAlphaChar c || isDigitChar c || c.toNat == 43 || c.toNat == 45 || c.toNat == 46

/-- A valid scheme: nonempty, starts with a letter, rest scheme characters. -/
def checkScheme (s : List Char) : Bool :=
  match s with
  | [] => false
  | c :: cs => isAlphaChar c && cs.all isSchemeChar

/-- Characters the model accepts in a hostname (registrable-domain labels):
letters, digits, `-` (45), `.` (46), `_` (95). -/
def isHostChar (c : Char) : Bool :=
  isAlphaChar c || isDigitChar c || c.toNat == 45 || c.toNat == 46 || c.toNat == 95

/-- Characters the model accepts in a path: printable ASCII other than the
query (`?` = 63) and fragment (`#` = 35) delimiters. -/
def isPathChar (c : Char) : Bool :=
  decide (33 ≤ c.toNat) && decide (c.toNat ≤ 126) &&
  !(c.toNat == 63) && !(c.toNat == 35)

/-- Split a list at the first occurrence of `c`, dropping the occurrence. -/
def splitAtFirst (c : Char) : List Char → Option (List Char × List Char)
  | [] => none
  | x :: xs =>
    if x = c then some ([], xs)
    else (splitAtFirst c xs).map (fun p => (x :: p.1, p.2))

/-- Authority text after the last `@` (the WHATWG parser treats everything up
to the last `@` as userinfo). -/
def afterLastAt (l : List Char) : List Char :=
  match splitAtFirst '@' l.reverse with
  | none => l
  | some p => p.1.reverse

/-- Split host from port at the first `:`; the flag records whether the port
text is acceptable (digits only, possibly empty). -/
def splitPort (l : List Char) : List Char × Bool :=
  match splitAtFirst ':' l with
  | none => (l, true)
  | some p => (p.1, p.2.all isDigitChar)

/-- Special schemes of the modeled fragment (the ones the repository uses). -/
def isSpecialScheme (s : List Char) : Bool :=
  s == "http".data || s == "https".data

/-- The components of a parsed URL that the repository reads:
`protocol` is `scheme ++ ":"`, and the code reads `scheme`, `hostname`
(`host` here) and `pathname` (`path`). -/
structure URLParts where
  scheme : List Char
  host : List Char
  path : List Char
deriving Repr, DecidableEq

/-- A character that ends the authority section: `/` (47), `?` (63), `#` (35). -/
def notAuthDelim (c : Char) : Bool := !(c == '/' || c == '?' || c == '#')

/-- A character that is neither the query nor the fragment delimiter. -/
def notQF (c : Char) : Bool := !(c == '?' || c == '#')

/-- The pathname text: everything from a leading `/` up to the query or
fragment delimiter; empty when the remainder has no path section. -/
def pathPart (afterAuth : List Char) : List Char :=
  match afterAuth with
  | [] => []
  | c :: t => if c = '/' then (c :: t).takeWhile notQF else []

/-- Parse authority and path, given the lowercased scheme, the authority text
and the remainder that follows it. -/
def parseAuthPath (scheme authority afterAuth : List Char) : Option URLParts :=
  let hostPort := splitPort (afterLastAt authority)
  if hostPort.2 && !hostPort.1.isEmpty && hostPort.1.all isHostChar then
    let path := pathPart afterAuth
    if path.all isPathChar then
      some ⟨scheme, lowerStr hostPort.1,
        if path.isEmpty && isSpecialScheme scheme then ['/'] else path⟩
    else none
  else none

/-- Parse the part after `scheme:`: require `//`, then split authority from
the path/query/fragment remainder. -/
def parseHier (scheme : List Char) : List Char → Option URLParts
  | '/' :: '/' :: rest2 =>
    parseAuthPath scheme (rest2.takeWhile notAuthDelim) (rest2.dropWhile notAuthDelim)
  | _ => none

/-- Model of the browser `new URL(...)` constructor on the ASCII fragment
described in the module docstring; `none` models the thrown `TypeError`. -/
def parseURL (l : List Char) : Option URLParts :=
  match splitAtFirst ':' l with
  | none => none
  | some (rawScheme, rest) =>
    if checkScheme rawScheme then parseHier (lowerStr rawScheme) rest else none

namespace URLNormalizer

/-- `hostname.replace(/^www\./i, '')`: strip one leading `www.` (the regex is
anchored and `String.replace` with a non-global regex replaces only the
first match). -/
def stripWww (h : List Char) : List Char :=
  if lowerStr (h.take 4) = "www.".data then h.drop 4 else h

/-- Character-list core of `normalizeUrl`: on parse success the template
`${protocol}//${hostname}${pathname}` (protocol is `scheme ++ ":"`, hostname
has one leading `www.` stripped) lowercased; on parse failure (the catch
branch of the source) the input unchanged. -/
def normalizeUrlCore (l : List Char) : List Char :=
  match parseURL l with
  | some u => lowerStr (u.scheme ++ ':' :: '/' :: '/' :: (stripWww u.host ++ u.path))
  | none => l

/-- `URLNormalizer.normalizeUrl` from `urlNormalizer.ts`. -/
def normalizeUrl (url : String) : String :=
  String.mk (normalizeUrlCore url.data)

/-- `URLNormalizer.shouldRecordNewVisit`: true iff the normalized forms differ. -/
def shouldRecordNewVisit (oldUrl newUrl : String) : Bool :=
  normalizeUrl oldUrl != normalizeUrl newUrl

end URLNormalizer

/-! ### Facts about `lowerChar` and the character classes -/

theorem toNat_lowerChar_of_upper {c : Char} (h : 65 ≤ c.toNat ∧ c.toNat ≤ 90) :
    (lowerChar c).toNat = c.toNat + 32 := by
  unfold lowerChar
  rw [if_pos h]
  have hv : (c.toNat + 32).isValidChar := Or.inl (by omega)
  unfold Char.ofNat
  rw [dif_pos hv]
  rfl

theorem lowerChar_of_not_upper {c : Char} (h : ¬(65 ≤ c.toNat ∧ c.toNat ≤ 90)) :
    lowerChar c = c := by
  unfold lowerChar
  rw [if_neg h]

theorem lowerChar_idem (c : Char) : lowerChar (lowerChar c) = lowerChar c := by
  by_cases h : 65 ≤ c.toNat ∧ c.toNat ≤ 90
  · have ht := toNat_lowerChar_of_upper h
    exact lowerChar_of_not_upper (by omega)
  · rw [lowerChar_of_not_upper h, lowerChar_of_not_upper h]

theorem lowerStr_idem (l : List Char) : lowerStr (lowerStr l) = lowerStr l := by
  unfold lowerStr
  rw [List.map_map]
  exact List.map_congr_left (fun c _ => lowerChar_idem c)

theorem eq_of_toNat_eq {a b : Char} (h : a.toNat = b.toNat) : a = b := by
  rw [← Char.ofNat_toNat a, h, Char.ofNat_toNat]

theorem toNat_eq_of_eq {a b : Char} (h : a = b) : a.toNat = b.toNat := by rw [h]

/-- The code point of `lowerChar c`, described arithmetically. -/
theorem toNat_lowerChar (c : Char) :
    (lowerChar c).toNat = c.toNat + 32 ∧ 65 ≤ c.toNat ∧ c.toNat ≤ 90 ∨
    (lowerChar c).toNat = c.toNat ∧ ¬(65 ≤ c.toNat ∧ c.toNat ≤ 90) := by
  by_cases h : 65 ≤ c.toNat ∧ c.toNat ≤ 90
  · exact Or.inl ⟨toNat_lowerChar_of_upper h, h⟩
  · exact Or.inr ⟨by rw [lowerChar_of_not_upper h], h⟩

theorem isSchemeChar_lowerChar {c : Char} (h : isSchemeChar c = true) :
    isSchemeChar (lowerChar c) = true := by
  simp only [isSchemeChar, isAlphaChar, isDigitChar, Bool.or_eq_true, Bool.and_eq_true,
    decide_eq_true_eq, beq_iff_eq] at h ⊢
  rcases toNat_lowerChar c with ⟨he, hr⟩ | ⟨he, hr⟩ <;> omega

theorem isAlphaChar_lowerChar {c : Char} (h : isAlphaChar c = true) :
    isAlphaChar (lowerChar c) = true := by
  simp only [isAlphaChar, Bool.or_eq_true, Bool.and_eq_true, decide_eq_true_eq] at h ⊢
  rcases toNat_lowerChar c with ⟨he, hr⟩ | ⟨he, hr⟩ <;> omega

theorem isHostChar_lowerChar {c : Char} (h : isHostChar c = true) :
    isHostChar (lowerChar c) = true := by
  simp only [isHostChar, isAlphaChar, isDigitChar, Bool.or_eq_true, Bool.and_eq_true,
    decide_eq_true_eq, beq_iff_eq] at h ⊢
  rcases toNat_lowerChar c with ⟨he, hr⟩ | ⟨he, hr⟩ <;> omega

theorem isPathChar_lowerChar {c : Char} (h : isPathChar c = true) :
    isPathChar (lowerChar c) = true := by
  simp only [isPathChar, Bool.and_eq_true, decide_eq_true_eq, Bool.not_eq_true',
    beq_eq_false_iff_ne, ne_eq] at h ⊢
  rcases toNat_lowerChar c with ⟨he, hr⟩ | ⟨he, hr⟩ <;> omega

theorem checkScheme_lowerStr {s : List Char} (h : checkScheme s = true) :
    checkScheme (lowerStr s) = true := by
  match s with
  | [] => simp [checkScheme] at h
  | c :: cs =>
    simp only [checkScheme, Bool.and_eq_true, List.all_eq_true] at h
    simp only [lowerStr, List.map_cons, checkScheme, Bool.and_eq_true, List.all_eq_true]
    refine ⟨isAlphaChar_lowerChar h.1, ?_⟩
    intro x hx
    obtain ⟨y, hy, rfl⟩ := List.mem_map.mp hx
    exact isSchemeChar_lowerChar (h.2 y hy)

theorem ne_of_toNat_ne {a b : Char} (h : a.toNat ≠ b.toNat) : a ≠ b :=
  fun he => h (toNat_eq_of_eq he)

theorem colon_not_mem_of_checkScheme {s : List Char} (h : checkScheme s = true) :
    ':' ∉ s := by
  match s with
  | [] => simp
  | c :: cs =>
    simp only [checkScheme, Bool.and_eq_true, List.all_eq_true] at h
    intro hm
    rcases List.mem_cons.mp hm with rfl | hm
    · simp only [isAlphaChar, Bool.or_eq_true, Bool.and_eq_true, decide_eq_true_eq] at h
      have : Char.toNat ':' = 58 := by decide
      omega
    · have := h.2 _ hm
      simp only [isSchemeChar, isAlphaChar, isDigitChar, Bool.or_eq_true, Bool.and_eq_true,
        decide_eq_true_eq, beq_iff_eq] at this
      have : Char.toNat ':' = 58 := by decide
      omega

theorem isHostChar_facts {c : Char} (h : isHostChar c = true) :
    c.toNat ≠ 47 ∧ c.toNat ≠ 63 ∧ c.toNat ≠ 35 ∧ c.toNat ≠ 64 ∧ c.toNat ≠ 58 := by
  simp only [isHostChar, isAlphaChar, isDigitChar, Bool.or_eq_true, Bool.and_eq_true,
    decide_eq_true_eq, beq_iff_eq] at h
  omega

theorem isHostChar_not_delim {c : Char} (h : isHostChar c = true) :
    notAuthDelim c = true := by
  unfold notAuthDelim
  obtain ⟨h1, h2, h3, _, _⟩ := isHostChar_facts h
  have e1 : c ≠ '/' := ne_of_toNat_ne (by simpa using h1)
  have e2 : c ≠ '?' := ne_of_toNat_ne (by simpa using h2)
  have e3 : c ≠ '#' := ne_of_toNat_ne (by simpa using h3)
  simp [e1, e2, e3]

theorem isPathChar_not_qf {c : Char} (h : isPathChar c = true) :
    notQF c = true := by
  unfold notQF
  simp only [isPathChar, Bool.and_eq_true, decide_eq_true_eq, Bool.not_eq_true',
    beq_eq_false_iff_ne, ne_eq] at h
  have hq : c.toNat ≠ 63 := by omega
  have hf : c.toNat ≠ 35 := by omega
  have e2 : c ≠ '?' := ne_of_toNat_ne (by simpa using hq)
  have e3 : c ≠ '#' := ne_of_toNat_ne (by simpa using hf)
  simp [e2, e3]

/-! ### Facts about `splitAtFirst` -/

theorem splitAtFirst_of_not_mem {c : Char} {l : List Char} (h : c ∉ l) :
    splitAtFirst c l = none := by
  induction l with
  | nil => rfl
  | cons x xs ih =>
    simp only [List.mem_cons, not_or] at h
    simp only [splitAtFirst, if_neg (Ne.symm h.1), ih h.2, Option.map_none']

theorem splitAtFirst_append {c : Char} {a b : List Char} (h : c ∉ a) :
    splitAtFirst c (a ++ c :: b) = some (a, b) := by
  induction a with
  | nil => simp [splitAtFirst]
  | cons x xs ih =>
    simp only [List.mem_cons, not_or] at h
    simp [splitAtFirst, if_neg (Ne.symm h.1), ih h.2]

/-! ### Inversion: shape of any successfully parsed URL -/

theorem pathPart_shape (q : List Char) :
    pathPart q = [] ∨ ∃ t, pathPart q = '/' :: List.takeWhile notQF t := by
  match q with
  | [] => exact Or.inl rfl
  | c :: t =>
    by_cases hc : c = '/'
    · subst hc
      refine Or.inr ⟨t, ?_⟩
      have : notQF '/' = true := by decide
      simp [pathPart, List.takeWhile_cons, this]
    · exact Or.inl (by simp [pathPart, hc])

theorem parseAuthPath_inv {s a q : List Char} {u : URLParts}
    (hp : parseAuthPath s a q = some u) :
    u.scheme = s ∧
    u.host ≠ [] ∧ u.host.all isHostChar = true ∧ lowerStr u.host = u.host ∧
    u.path.all isPathChar = true ∧
    (u.path = [] ∧ isSpecialScheme s = false ∨ ∃ t, u.path = '/' :: t) := by
  simp only [parseAuthPath] at hp
  split at hp
  case isFalse => exact absurd hp (by simp)
  next hguard =>
  split at hp
  case isFalse => exact absurd hp (by simp)
  next hpath =>
  injection hp with hu
  subst hu
  simp only [Bool.and_eq_true, Bool.not_eq_true', List.isEmpty_eq_false,
    ne_eq, List.all_eq_true] at hguard hpath
  obtain ⟨⟨hport, hne⟩, hhost⟩ := hguard
  refine ⟨rfl, ?_, ?_, ?_, ?_, ?_⟩
  · simpa [lowerStr] using hne
  · simp only [List.all_eq_true, lowerStr]
    intro x hx
    obtain ⟨y, hy, rfl⟩ := List.mem_map.mp hx
    exact isHostChar_lowerChar (hhost y hy)
  · exact lowerStr_idem _
  · simp only [List.all_eq_true]
    intro x hx
    split at hx
    · simp only [List.mem_singleton] at hx
      subst hx
      decide
    · exact hpath x hx
  · split
    next hcond => exact Or.inr ⟨[], rfl⟩
    next hcond =>
      rcases pathPart_shape q with hq | ⟨t, hq⟩
      · refine Or.inl ⟨hq, ?_⟩
        rw [hq] at hcond
        simpa using hcond
      · exact Or.inr ⟨_, hq⟩

theorem parseURL_inv {l : List Char} {u : URLParts} (hp : parseURL l = some u) :
    checkScheme u.scheme = true ∧ lowerStr u.scheme = u.scheme ∧
    u.host ≠ [] ∧ u.host.all isHostChar = true ∧ lowerStr u.host = u.host ∧
    u.path.all isPathChar = true ∧
    (u.path = [] ∧ isSpecialScheme u.scheme = false ∨ ∃ t, u.path = '/' :: t) := by
  unfold parseURL at hp
  split at hp
  · exact absurd hp (by simp)
  next rawScheme rest hsplit =>
  split at hp
  case isFalse => exact absurd hp (by simp)
  next hcs =>
  unfold parseHier at hp
  split at hp
  next rest2 =>
    obtain ⟨hsch, h2, h3, h4, h5, h6⟩ := parseAuthPath_inv hp
    rw [hsch]
    exact ⟨checkScheme_lowerStr hcs, lowerStr_idem _, h2, h3, h4, h5, h6⟩
  next => exact absurd hp (by simp)

/-! ### Re-parsing the string produced by `normalizeUrl` -/

theorem takeWhile_all {pr : Char → Bool} {l : List Char} (h : ∀ x ∈ l, pr x = true) :
    l.takeWhile pr = l := by
  induction l with
  | nil => rfl
  | cons c cs ih =>
    rw [List.takeWhile_cons, if_pos (h c (List.mem_cons_self c cs))]
    rw [ih (fun x hx => h x (List.mem_cons_of_mem c hx))]

theorem lowerStr_append (a b : List Char) : lowerStr (a ++ b) = lowerStr a ++ lowerStr b :=
  List.map_append lowerChar a b

theorem all_isHostChar_lowerStr {h : List Char} (hh : h.all isHostChar = true) :
    (lowerStr h).all isHostChar = true := by
  simp only [List.all_eq_true, lowerStr] at hh ⊢
  intro x hx
  obtain ⟨y, hy, rfl⟩ := List.mem_map.mp hx
  exact isHostChar_lowerChar (hh y hy)

theorem not_mem_of_all_isHostChar {h : List Char} (hh : h.all isHostChar = true)
    {c : Char} (hc : isHostChar c = false) : c ∉ h := by
  simp only [List.all_eq_true] at hh
  intro hm
  rw [hh c hm] at hc
  exact Bool.true_eq_false ▸ hc

/-- A list of host characters passes the authority scan unchanged. -/
theorem authority_of_host {h p : List Char} (hh : h.all isHostChar = true)
    (hshape : p = [] ∨ ∃ t, p = '/' :: t) :
    (h ++ p).takeWhile notAuthDelim = h ∧ (h ++ p).dropWhile notAuthDelim = p := by
  have hall : ∀ x ∈ h, notAuthDelim x = true := by
    simp only [List.all_eq_true] at hh
    exact fun x hx => isHostChar_not_delim (hh x hx)
  constructor
  · rw [List.takeWhile_append_of_pos hall]
    rcases hshape with rfl | ⟨t, rfl⟩
    · simp
    · have : notAuthDelim '/' = false := by decide
      simp [List.takeWhile_cons, this]
  · rw [List.dropWhile_append_of_pos hall]
    rcases hshape with rfl | ⟨t, rfl⟩
    · simp
    · have : notAuthDelim '/' = false := by decide
      simp [List.dropWhile_cons, this]

/-- A valid host is its own authority: no userinfo, no port. -/
theorem authParse_of_host {h : List Char} (hh : h.all isHostChar = true) :
    afterLastAt h = h ∧ splitPort h = (h, true) := by
  have hat : '@' ∉ h := not_mem_of_all_isHostChar hh (by decide)
  have hcol : ':' ∉ h := not_mem_of_all_isHostChar hh (by decide)
  constructor
  · unfold afterLastAt
    rw [splitAtFirst_of_not_mem (by simpa using hat)]
  · unfold splitPort
    rw [splitAtFirst_of_not_mem hcol]

/-- Round trip: parsing the string `normalizeUrl` builds from valid components
recovers those components (lowercased). -/
theorem parse_rebuilt {s h p : List Char}
    (hs : checkScheme s = true) (hls : lowerStr s = s)
    (hh : h ≠ []) (hhc : h.all isHostChar = true)
    (hpp : p.all isPathChar = true)
    (hshape : p = [] ∧ isSpecialScheme s = false ∨ ∃ t, p = '/' :: t) :
    parseURL (lowerStr (s ++ ':' :: '/' :: '/' :: (h ++ p))) =
      some ⟨s, lowerStr h, lowerStr p⟩ := by
  have hcolon : lowerChar ':' = ':' := by decide
  have hslash : lowerChar '/' = '/' := by decide
  have hL : lowerStr (s ++ ':' :: '/' :: '/' :: (h ++ p)) =
      s ++ ':' :: '/' :: '/' :: (lowerStr h ++ lowerStr p) := by
    rw [lowerStr_append]
    rw [hls]
    simp only [lowerStr, List.map_cons, hcolon, hslash, List.map_append]
  rw [hL]
  have hshape' : lowerStr p = [] ∨ ∃ t, lowerStr p = '/' :: t := by
    rcases hshape with ⟨rfl, _⟩ | ⟨t, rfl⟩
    · exact Or.inl rfl
    · exact Or.inr ⟨lowerStr t, by simp [lowerStr, hslash]⟩
  have hhc' : (lowerStr h).all isHostChar = true := all_isHostChar_lowerStr hhc
  have hauth := authority_of_host hhc' hshape'
  have hap := authParse_of_host hhc'
  unfold parseURL
  rw [splitAtFirst_append (colon_not_mem_of_checkScheme hs)]
  dsimp only
  rw [if_pos hs, hls]
  show parseAuthPath s ((lowerStr h ++ lowerStr p).takeWhile notAuthDelim)
      ((lowerStr h ++ lowerStr p).dropWhile notAuthDelim) = _
  rw [hauth.1, hauth.2]
  unfold parseAuthPath
  rw [hap.1, hap.2]
  have hne : (lowerStr h).isEmpty = false := by
    cases h with
    | nil => exact absurd rfl hh
    | cons c cs => rfl
  dsimp only
  rw [hne, hhc', lowerStr_idem]
  simp only [Bool.not_false, Bool.and_true, Bool.true_and, if_true]
  have hpath_all : ∀ x ∈ lowerStr p, isPathChar x = true := by
    simp only [List.all_eq_true, lowerStr] at hpp ⊢
    intro x hx
    obtain ⟨y, hy, rfl⟩ := List.mem_map.mp hx
    exact isPathChar_lowerChar (hpp y hy)
  rcases hshape with ⟨rfl, hnsp⟩ | ⟨t, rfl⟩
  · show (if (pathPart (lowerStr [])).all isPathChar = true then _ else _) = _
    simp only [lowerStr, List.map_nil, pathPart, List.all_nil, if_true]
    rw [if_neg]
    simp [hnsp]
  · have hlp : lowerStr ('/' :: t) = '/' :: lowerStr t := by simp [lowerStr, hslash]
    rw [hlp]
    have hqf : ∀ x ∈ ('/' : Char) :: lowerStr t, notQF x = true := by
      intro x hx
      exact isPathChar_not_qf (hpath_all x (hlp ▸ hx))
    have hpp2 : pathPart ('/' :: lowerStr t) = '/' :: lowerStr t := by
      rw [pathPart, if_pos rfl]
      exact takeWhile_all hqf
    show (if (pathPart ('/' :: lowerStr t)).all isPathChar = true then _ else _) = _
    rw [hpp2]
    rw [if_pos (by simp only [List.all_eq_true]; exact fun x hx => hpath_all x (hlp ▸ hx))]
    simp

/-- An empty authority never parses (the guard requires a nonempty host). -/
theorem parseAuthPath_empty_auth (s q : List Char) : parseAuthPath s [] q = none := rfl

/-- Rebuilding with an empty host yields a string that fails to re-parse. -/
theorem parse_rebuilt_empty_host {s p : List Char}
    (hs : checkScheme s = true) (hls : lowerStr s = s)
    (hshape : p = [] ∨ ∃ t, p = '/' :: t) :
    parseURL (lowerStr (s ++ ':' :: '/' :: '/' :: p)) = none := by
  have hcolon : lowerChar ':' = ':' := by decide
  have hslash : lowerChar '/' = '/' := by decide
  have hL : lowerStr (s ++ ':' :: '/' :: '/' :: p) = s ++ ':' :: '/' :: '/' :: lowerStr p := by
    rw [lowerStr_append, hls]
    simp only [lowerStr, List.map_cons, hcolon, hslash]
  rw [hL]
  unfold parseURL
  rw [splitAtFirst_append (colon_not_mem_of_checkScheme hs)]
  dsimp only
  rw [if_pos hs, hls]
  show parseAuthPath s ((lowerStr p).takeWhile notAuthDelim)
      ((lowerStr p).dropWhile notAuthDelim) = none
  have hta : (lowerStr p).takeWhile notAuthDelim = [] := by
    rcases hshape with rfl | ⟨t, rfl⟩
    · rfl
    · have : notAuthDelim '/' = false := by decide
      simp [lowerStr, hslash, List.takeWhile_cons, this]
  rw [hta, parseAuthPath_empty_auth]

/-- Lowercasing absorbs an inner lowercasing of the path component. -/
theorem build_lower_eq (s a p : List Char) :
    lowerStr (s ++ ':' :: '/' :: '/' :: (a ++ lowerStr p)) =
    lowerStr (s ++ ':' :: '/' :: '/' :: (a ++ p)) := by
  unfold lowerStr
  simp only [List.map_append, List.map_cons, List.map_map]
  rw [show List.map (lowerChar ∘ lowerChar) p = List.map lowerChar p from
    List.map_congr_left (fun c _ => lowerChar_idem c)]

namespace URLNormalizer

theorem stripWww_all {h : List Char} (hh : h.all isHostChar = true) :
    (stripWww h).all isHostChar = true := by
  unfold stripWww
  split
  · simp only [List.all_eq_true] at hh ⊢
    exact fun x hx => hh x (List.mem_of_mem_drop hx)
  · exact hh

theorem lowerStr_stripWww {h : List Char} (hl : lowerStr h = h) :
    lowerStr (stripWww h) = stripWww h := by
  unfold stripWww
  split
  · unfold lowerStr
    rw [List.map_drop]
    show (lowerStr h).drop 4 = h.drop 4
    rw [hl]
  · exact hl

/-- Hostname still starting with `www.` after one strip is the only source of
non-idempotence; this records its absence. -/
def noDoubleWwwCore (l : List Char) : Bool :=
  match parseURL l with
  | some r => stripWww (stripWww r.host) == stripWww r.host
  | none => true

/-- String-level form of `noDoubleWwwCore`. -/
def noDoubleWww (u : String) : Bool := noDoubleWwwCore u.data

theorem normalizeUrlCore_idem {l : List Char} (hw : noDoubleWwwCore l = true) :
    normalizeUrlCore (normalizeUrlCore l) = normalizeUrlCore l := by
  unfold noDoubleWwwCore at hw
  cases hp : parseURL l with
  | none =>
    have h1 : normalizeUrlCore l = l := by
      unfold normalizeUrlCore
      rw [hp]
    rw [h1]
    exact h1
  | some r =>
    rw [hp] at hw
    have hw2 : (stripWww (stripWww r.host) == stripWww r.host) = true := hw
    obtain ⟨hcs, hlsch, hhne, hhall, hlh, hpall, hpshape⟩ := parseURL_inv hp
    have h1 : normalizeUrlCore l =
        lowerStr (r.scheme ++ ':' :: '/' :: '/' :: (stripWww r.host ++ r.path)) := by
      unfold normalizeUrlCore
      rw [hp]
    rw [h1]
    by_cases hsw : stripWww r.host = []
    · have hshape2 : r.path = [] ∨ ∃ t, r.path = '/' :: t := by
        rcases hpshape with ⟨h, _⟩ | h
        · exact Or.inl h
        · exact Or.inr h
      have h2 : parseURL (lowerStr (r.scheme ++ ':' :: '/' :: '/' ::
          (stripWww r.host ++ r.path))) = none := by
        rw [hsw, List.nil_append]
        exact parse_rebuilt_empty_host hcs hlsch hshape2
      unfold normalizeUrlCore
      rw [h2]
    · have h2 := parse_rebuilt hcs hlsch hsw (stripWww_all hhall) hpall hpshape
      unfold normalizeUrlCore
      rw [h2]
      dsimp only
      rw [lowerStr_stripWww hlh]
      rw [eq_of_beq hw2]
      exact build_lower_eq r.scheme (stripWww r.host) r.path

end URLNormalizer

/-!
## LinkAnalyzer

Shallow embedding of the LinkAnalyzer class.  A document is modeled as the
list of its `a[href]` elements together with the data the analyzer reads
from each: whether `closest('nav, header, footer, .nav, .header, .footer,
.menu')` finds an ancestor, the element's `textContent`, whether
`querySelector('img')` finds a descendant, and the `href` attribute.
-/

/-- JS whitespace (the `\s` class and `trim`), modeled on the ASCII range
plus NBSP: space 32, tab 9, LF 10, CR 13, VT 11, FF 12, NBSP 160. -/
def isWsp (c : Char) : Bool :=
  c.toNat == 32 || c.toNat == 9 || c.toNat == 10 || c.toNat == 13 ||
  c.toNat == 11 || c.toNat == 12 || c.toNat == 160

/-- Remove trailing whitespace. -/
def dropTrailWs : List Char → List Char
  | [] => []
  | c :: cs =>
    if (dropTrailWs cs).isEmpty then (if isWsp c then [] else [c])
    else c :: dropTrailWs cs

/-- Remove leading and trailing whitespace. -/
def trimList (l : List Char) : List Char := dropTrailWs (l.dropWhile isWsp)

/-- Model of `String.prototype.trim`. -/
def jsTrim (s : String) : String := String.mk (trimList s.data)

/-- List version of `String.startsWith` (also used for anchored regexes). -/
def startsWithL : List Char → List Char → Bool
  | _, [] => true
  | [], _ :: _ => false
  | x :: xs, y :: ys => x == y && startsWithL xs ys

/-- Model of `String.prototype.startsWith`. -/
def startsWithStr (s pat : String) : Bool := startsWithL s.data pat.data

/-- Model of `String.prototype.endsWith`. -/
def endsWithL (l pat : List Char) : Bool := startsWithL l.reverse pat.reverse

namespace LinkAnalyzer

/-- The data `LinkAnalyzer` reads from one `a[href]` element. -/
structure LinkElem where
  inNavRegion : Bool
  textContent : String
  hasImg : Bool
  href : String
deriving Repr, DecidableEq

/-- `/^[#•·→]$/.test(text)`: true exactly on the four one-character strings. -/
def singleSymbol (t : String) : Bool :=
  match t.data with
  | [c] => c == '#' || c == '•' || c == '·' || c == '→'
  | _ => false

/-- `LinkAnalyzer.isNonContentLink`: in a navigation region, or lacking both
meaningful text (trimmed length > 1 and not a single symbol) and an image. -/
def isNonContentLink (link : LinkElem) : Bool :=
  if link.inNavRegion then true
  else
    let text := jsTrim link.textContent
    let hasMeaningfulText := decide (text.length > 1) && !singleSymbol text
    !hasMeaningfulText && !link.hasImg

/-- The alternation of `^(#|javascript:|tel:|mailto:|data:|about:blank)`. -/
def badSchemes : List (List Char) :=
  ["#".data, "javascript:".data, "tel:".data, "mailto:".data, "data:".data,
   "about:blank".data]

/-- `LinkAnalyzer.isMeaningfulLink`: not an in-page anchor or
javascript/tel/mailto/data/about:blank target (case-insensitively), and
nonempty after trimming. -/
def isMeaningfulLink (href : String) : Bool :=
  !(badSchemes.any (fun p => startsWithL (lowerStr href.data) p)) &&
  decide ((jsTrim href).length > 0)

/-- `LinkAnalyzer.isInternalLink`: root-relative and relative paths are
internal; an href starting with "http" is internal iff its hostname equals
the current domain or is a subdomain of it, and parse failure (the catch)
gives false; anything else is internal. -/
def isInternalLink (href currentDomain : String) : Bool :=
  if startsWithStr href "/" || startsWithStr href "./" || startsWithStr href "../" then
    true
  else if startsWithStr href "http" then
    match parseURL href.data with
    | some u => u.host == currentDomain.data || endsWithL u.host ('.' :: currentDomain.data)
    | none => false
  else true

/-- `LinkAnalyzer.isExternalLink`: an href starting with "http" whose
hostname differs from the current domain and is not a subdomain of it;
parse failure (the catch) gives false. -/
def isExternalLink (href currentDomain : String) : Bool :=
  if !startsWithStr href "http" then false
  else
    match parseURL href.data with
    | some u => !(u.host == currentDomain.data) && !endsWithL u.host ('.' :: currentDomain.data)
    | none => false

/-- The record `countContentLinks` returns. -/
structure LinkCounts where
  total : Nat
  internal : Nat
  external : Nat
deriving Repr, DecidableEq

/-- `LinkAnalyzer.countContentLinks` on a document whose `a[href]` elements
and `window.location.hostname` are given. -/
def countContentLinks (links : List LinkElem) (currentDomain : String) : LinkCounts :=
  let meaningfulLinks := links.filter
    (fun link => !isNonContentLink link && isMeaningfulLink link.href)
  { total := meaningfulLinks.length
    internal := (meaningfulLinks.filter
      (fun link => isInternalLink link.href currentDomain)).length
    external := (meaningfulLinks.filter
      (fun link => isExternalLink link.href currentDomain)).length }

end LinkAnalyzer

/-- Sanity evaluation on the fixtures of the spec: the `<footer>` bullet link
is excluded from all counts, "/about" is internal, the other.org link is
external, and a malformed absolute URL counts only toward the total. -/
theorem countContentLinks_fixture_eval : LinkAnalyzer.countContentLinks
    [⟨false, "About Us", false, "/about"⟩,
     ⟨false, "Visit", false, "https://other.org/page"⟩,
     ⟨true, "•", false, "#"⟩,
     ⟨false, "Broken", false, "http://"⟩] "a.com" = ⟨3, 1, 1⟩ := by decide

/-! ### Link classification facts -/

theorem startsWithL_head {x y : Char} {xs ys : List Char}
    (h : startsWithL (x :: xs) (y :: ys) = true) : x = y := by
  simp only [startsWithL, Bool.and_eq_true, beq_iff_eq] at h
  exact h.1

theorem startsWith_slash_not_http {l : List Char}
    (h : (startsWithL l "/".data || startsWithL l "./".data ||
      startsWithL l "../".data) = true) :
    startsWithL l "http".data = false := by
  match l with
  | [] => simp [startsWithL] at h
  | x :: xs =>
    have hx : x = '/' ∨ x = '.' := by
      rcases (Bool.or_eq_true _ _).mp h with h' | hc
      · rcases (Bool.or_eq_true _ _).mp h' with ha | hb
        · exact Or.inl (startsWithL_head ha)
        · exact Or.inr (startsWithL_head hb)
      · exact Or.inr (startsWithL_head hc)
    show (x == 'h' && startsWithL xs "ttp".data) = false
    rcases hx with rfl | rfl <;> rfl

theorem startsWith_http_not_slash {l : List Char}
    (h : startsWithL l "http".data = true) :
    (startsWithL l "/".data || startsWithL l "./".data ||
      startsWithL l "../".data) = false := by
  match l with
  | [] => simp [startsWithL] at h
  | x :: xs =>
    have hx : x = 'h' := startsWithL_head h
    subst hx
    rfl

namespace LinkAnalyzer

/-- No href is both internal and external. -/
theorem internal_external_exclusive (href currentDomain : String) :
    ¬(isInternalLink href currentDomain = true ∧
      isExternalLink href currentDomain = true) := by
  rintro ⟨hi, he⟩
  unfold isInternalLink at hi
  unfold isExternalLink at he
  by_cases hh : startsWithStr href "http" = true
  · rw [hh] at he
    rw [if_neg (by simp)] at he
    have hs := startsWith_http_not_slash (l := href.data) hh
    rw [if_neg (by unfold startsWithStr; simp only [hs]; simp)] at hi
    rw [if_pos hh] at hi
    cases hp : parseURL href.data with
    | none =>
      rw [hp] at hi
      exact Bool.false_ne_true hi
    | some u =>
      rw [hp] at hi he
      simp only [Bool.and_eq_true, Bool.not_eq_true', Bool.or_eq_true] at hi he
      rcases hi with hi | hi
      · rw [hi] at he
        exact Bool.true_eq_false ▸ he.1
      · rw [hi] at he
        exact Bool.true_eq_false ▸ he.2
  · have hh' : startsWithStr href "http" = false := Bool.not_eq_true _ ▸ hh
    rw [hh'] at he
    simp at he

/-- Bool form of the exclusivity: the two classifiers never both fire. -/
theorem internal_and_external_false (href currentDomain : String) :
    (isInternalLink href currentDomain && isExternalLink href currentDomain) = false := by
  cases hi : isInternalLink href currentDomain
  · rfl
  · cases he : isExternalLink href currentDomain
    · rfl
    · exact absurd ⟨hi, he⟩ (internal_external_exclusive href currentDomain)

end LinkAnalyzer

/-- Two pointwise-exclusive filters together keep at most all elements. -/
theorem length_filter_two_exclusive {α : Type} (p q : α → Bool) (l : List α)
    (hpq : ∀ x, ¬(p x = true ∧ q x = true)) :
    (l.filter p).length + (l.filter q).length ≤ l.length := by
  induction l with
  | nil => simp
  | cons a as ih =>
    by_cases hp : p a = true
    · have hq : q a = false := by
        cases hqa : q a
        · rfl
        · exact absurd ⟨hp, hqa⟩ (hpq a)
      rw [List.filter_cons_of_pos hp, List.filter_cons_of_neg (by simp [hq])]
      simp only [List.length_cons]
      omega
    · have hp' : p a = false := Bool.not_eq_true _ ▸ hp
      rw [List.filter_cons_of_neg (by simp [hp'])]
      by_cases hq : q a = true
      · rw [List.filter_cons_of_pos hq]
        simp only [List.length_cons]
        omega
      · rw [List.filter_cons_of_neg (by simp [Bool.not_eq_true _ ▸ hq])]
        simp only [List.length_cons]
        omega

/-- A filter and its complement partition the list. -/
theorem length_filter_add_filter_not {α : Type} (p : α → Bool) (l : List α) :
    (l.filter p).length + (l.filter (fun x => !p x)).length = l.length := by
  induction l with
  | nil => rfl
  | cons a as ih =>
    cases hpa : p a
    · rw [List.filter_cons_of_neg (by simp [hpa]), List.filter_cons_of_pos (by simp [hpa])]
      simp only [List.length_cons]
      omega
    · rw [List.filter_cons_of_pos hpa, List.filter_cons_of_neg (by simp [hpa])]
      simp only [List.length_cons]
      omega

/-- Claim C3: the record from `countContentLinks` has all fields ≥ 0 and
`internal + external ≤ total`; no link counts in both buckets, and a
meaningful link whose classification fails (a malformed absolute URL such
as "http://") counts in `total` but in neither bucket. -/
theorem C3_countContentLinks_bounds :
    (∀ (links : List LinkAnalyzer.LinkElem) (currentDomain : String),
      0 ≤ (LinkAnalyzer.countContentLinks links currentDomain).total ∧
      0 ≤ (LinkAnalyzer.countContentLinks links currentDomain).internal ∧
      0 ≤ (LinkAnalyzer.countContentLinks links currentDomain).external ∧
      (LinkAnalyzer.countContentLinks links currentDomain).internal +
        (LinkAnalyzer.countContentLinks links currentDomain).external ≤
        (LinkAnalyzer.countContentLinks links currentDomain).total) ∧
    (∀ href currentDomain : String,
      (LinkAnalyzer.isInternalLink href currentDomain &&
        LinkAnalyzer.isExternalLink href currentDomain) = false) ∧
    (∀ currentDomain : String,
      LinkAnalyzer.countContentLinks [⟨false, "Broken", false, "http://"⟩]
        currentDomain = ⟨1, 0, 0⟩) := by
  refine ⟨?_, LinkAnalyzer.internal_and_external_false, fun _ => rfl⟩
  intro links currentDomain
  refine ⟨Nat.zero_le _, Nat.zero_le _, Nat.zero_le _, ?_⟩
  exact length_filter_two_exclusive _ _ _
    (fun x => LinkAnalyzer.internal_external_exclusive x.href currentDomain)

theorem startsWithStr_http_not_slash {href : String}
    (h : startsWithStr href "http" = true) :
    (startsWithStr href "/" || startsWithStr href "./" ||
      startsWithStr href "../") = false :=
  startsWith_http_not_slash h

/-- Claim C6: classification of a link target by `isInternalLink` and
`isExternalLink`: strings not starting with "http" (root-relative and
relative paths, malformed or unrecognized schemes) are internal; an
absolute URL starting with "http" whose hostname equals or is a subdomain
of the current hostname is internal; one with a differing, non-subdomain
hostname is external; one that starts with "http" but fails URL parsing is
neither. -/
theorem C6_link_classification :
    (∀ href currentDomain : String, startsWithStr href "http" = false →
      LinkAnalyzer.isInternalLink href currentDomain = true ∧
      LinkAnalyzer.isExternalLink href currentDomain = false) ∧
    (∀ (href currentDomain : String) (u : URLParts),
      startsWithStr href "http" = true → parseURL href.data = some u →
      (u.host == currentDomain.data || endsWithL u.host ('.' :: currentDomain.data)) = true →
      LinkAnalyzer.isInternalLink href currentDomain = true ∧
      LinkAnalyzer.isExternalLink href currentDomain = false) ∧
    (∀ (href currentDomain : String) (u : URLParts),
      startsWithStr href "http" = true → parseURL href.data = some u →
      (u.host == currentDomain.data || endsWithL u.host ('.' :: currentDomain.data)) = false →
      LinkAnalyzer.isInternalLink href currentDomain = false ∧
      LinkAnalyzer.isExternalLink href currentDomain = true) ∧
    (∀ href currentDomain : String,
      startsWithStr href "http" = true → parseURL href.data = none →
      LinkAnalyzer.isInternalLink href currentDomain = false ∧
      LinkAnalyzer.isExternalLink href currentDomain = false) := by
  refine ⟨?_, ?_, ?_, ?_⟩
  · intro href currentDomain hh
    constructor
    · unfold LinkAnalyzer.isInternalLink
      by_cases hs : (startsWithStr href "/" || startsWithStr href "./" ||
          startsWithStr href "../") = true
      · rw [if_pos hs]
      · rw [if_neg hs, hh]
        rfl
    · unfold LinkAnalyzer.isExternalLink
      rw [hh]
      rfl
  · intro href currentDomain u hh hp hcond
    have hs := startsWithStr_http_not_slash hh
    constructor
    · unfold LinkAnalyzer.isInternalLink
      rw [if_neg (by rw [hs]; simp), if_pos hh, hp]
      exact hcond
    · unfold LinkAnalyzer.isExternalLink
      rw [if_neg (by rw [hh]; simp), hp]
      dsimp only
      rcases Bool.or_eq_true _ _ |>.mp hcond with hce | hce
      · rw [hce]
        rfl
      · rw [hce]
        simp
  · intro href currentDomain u hh hp hcond
    have hs := startsWithStr_http_not_slash hh
    have hcond' := (Bool.or_eq_false_iff).mp hcond
    constructor
    · unfold LinkAnalyzer.isInternalLink
      rw [if_neg (by rw [hs]; simp), if_pos hh, hp]
      exact hcond
    · unfold LinkAnalyzer.isExternalLink
      rw [if_neg (by rw [hh]; simp), hp]
      dsimp only
      rw [hcond'.1, hcond'.2]
      rfl
  · intro href currentDomain hh hp
    have hs := startsWithStr_http_not_slash hh
    constructor
    · unfold LinkAnalyzer.isInternalLink
      rw [if_neg (by rw [hs]; simp), if_pos hh, hp]
    · unfold LinkAnalyzer.isExternalLink
      rw [if_neg (by rw [hh]; simp), hp]

/-- Witness for C6: one concrete link per classification case. -/
theorem C6_link_classification_witness :
    (LinkAnalyzer.isInternalLink "/about" "a.com" = true ∧
      LinkAnalyzer.isExternalLink "/about" "a.com" = false) ∧
    (LinkAnalyzer.isInternalLink "https://blog.a.com/x" "a.com" = true ∧
      LinkAnalyzer.isExternalLink "https://blog.a.com/x" "a.com" = false) ∧
    (LinkAnalyzer.isInternalLink "https://other.org/page" "a.com" = false ∧
      LinkAnalyzer.isExternalLink "https://other.org/page" "a.com" = true) ∧
    (LinkAnalyzer.isInternalLink "http://" "a.com" = false ∧
      LinkAnalyzer.isExternalLink "http://" "a.com" = false) :=
  ⟨C6_link_classification.1 "/about" "a.com" (by decide),
   C6_link_classification.2.1 "https://blog.a.com/x" "a.com"
     ⟨"https".data, "blog.a.com".data, "/x".data⟩ (by decide) (by decide) (by decide),
   C6_link_classification.2.2.1 "https://other.org/page" "a.com"
     ⟨"https".data, "other.org".data, "/page".data⟩ (by decide) (by decide) (by decide),
   C6_link_classification.2.2.2 "http://" "a.com" (by decide) (by decide)⟩

theorem singleSymbol_of_long {t : String} (h : t.length > 1) :
    LinkAnalyzer.singleSymbol t = false := by
  obtain ⟨l⟩ := t
  match l with
  | [] => rfl
  | [c] => exact absurd h (by simp [String.length])
  | c1 :: c2 :: r => rfl

/-- Claim C10: outside navigation regions, `isNonContentLink` depends only on
whether the trimmed text has length at most 1 and the link has no image:
the single-symbol pattern only matches one-character strings, so any text
of trimmed length at least 2 — even "••" or "→→" — counts as meaningful. -/
theorem C10_isNonContentLink_length_only :
    (∀ link : LinkAnalyzer.LinkElem, link.inNavRegion = false →
      LinkAnalyzer.isNonContentLink link =
        (decide ((jsTrim link.textContent).length ≤ 1) && !link.hasImg)) ∧
    LinkAnalyzer.isNonContentLink ⟨false, "••", false, "/x"⟩ = false ∧
    LinkAnalyzer.isNonContentLink ⟨false, "→→", false, "/x"⟩ = false := by
  refine ⟨?_, by decide, by decide⟩
  intro link hnav
  unfold LinkAnalyzer.isNonContentLink
  rw [hnav]
  simp only [Bool.false_eq_true, if_false]
  by_cases hl : (jsTrim link.textContent).length > 1
  · rw [singleSymbol_of_long hl]
    simp only [decide_eq_true hl, Bool.not_false, Bool.and_true, Bool.not_true,
      Bool.false_and, decide_eq_false (by omega : ¬(jsTrim link.textContent).length ≤ 1)]
  · rw [decide_eq_false hl]
    simp only [Bool.false_and, Bool.not_false, Bool.true_and,
      decide_eq_true (by omega : (jsTrim link.textContent).length ≤ 1)]

/-- Witness for C10: a non-navigation link with two-symbol text "••" and no
image is not excluded. -/
theorem C10_isNonContentLink_length_only_witness :
    LinkAnalyzer.isNonContentLink ⟨false, "•• ", true, "/x"⟩ =
      (decide ((jsTrim ("•• " : String)).length ≤ 1) && !true) :=
  C10_isNonContentLink_length_only.1 ⟨false, "•• ", true, "/x"⟩ rfl

/-!
## ImageAnalyzer

Shallow embedding of `imageAnalyzer.ts`.  A document is modeled as the list
of its `img[src]` elements together with the data `isContentImage` reads
from each.  `getBoundingClientRect` widths and heights are modeled as
natural numbers (the thresholds 0, 50 and 200 used by the code are
integral, so no comparison in the code distinguishes this from floats on
the inputs of interest).
-/

namespace ImageAnalyzer

/-- The data `ImageAnalyzer` reads from one `img[src]` element. -/
structure ImgElem where
  naturalWidth : Nat
  naturalHeight : Nat
  inNonContentArea : Bool
  rectWidth : Nat
  rectHeight : Nat
  displayNone : Bool
  visibilityHidden : Bool
  alt : String
  src : String
deriving Repr, DecidableEq

/-- Substring containment, modeling `String.prototype.includes`. -/
def containsSub (hay needle : List Char) : Bool :=
  startsWithL hay needle ||
    match hay with
    | [] => false
    | _ :: t => containsSub t needle

/-- `ImageAnalyzer.isContentImage`: both natural dimensions at least 50, not
inside a nav/header/menu/icon region, visibly rendered, and carrying at
least one relevance signal (alt text longer than 10 characters, a
media/images/upload marker in the source path, or rendered width over
200px). -/
def isContentImage (img : ImgElem) : Bool :=
  if img.naturalWidth < 50 || img.naturalHeight < 50 then false
  else if img.inNonContentArea then false
  else
    let isVisible := decide (img.rectWidth > 0) && decide (img.rectHeight > 0) &&
      !img.displayNone && !img.visibilityHidden
    let hasAltText := !(img.alt == "") && decide (img.alt.length > 10)
    let src := lowerStr img.src.data
    let isLikelyContent := hasAltText ||
      containsSub src "/media/".data ||
      containsSub src "/images/".data ||
      containsSub src "upload".data ||
      decide (img.rectWidth > 200)
    isVisible && isLikelyContent

/-- The record `countContentImages` returns. -/
structure ImageCounts where
  total : Nat
  content : Nat
  decorative : Nat
deriving Repr, DecidableEq

/-- `ImageAnalyzer.countContentImages` on a document whose `img[src]`
elements are given. -/
def countContentImages (images : List ImgElem) : ImageCounts :=
  { total := images.length
    content := (images.filter (fun img => isContentImage img)).length
    decorative := (images.filter (fun img => !isContentImage img)).length }

end ImageAnalyzer

/-- Claim C4: `countContentImages` produces an exact partition: every counted
image is classified into exactly one bucket, all fields are ≥ 0, and
`content + decorative = total`. -/
theorem C4_countContentImages_partition :
    ∀ images : List ImageAnalyzer.ImgElem,
      0 ≤ (ImageAnalyzer.countContentImages images).total ∧
      0 ≤ (ImageAnalyzer.countContentImages images).content ∧
      0 ≤ (ImageAnalyzer.countContentImages images).decorative ∧
      (ImageAnalyzer.countContentImages images).content +
        (ImageAnalyzer.countContentImages images).decorative =
        (ImageAnalyzer.countContentImages images).total ∧
      (∀ img : ImageAnalyzer.ImgElem,
        (ImageAnalyzer.isContentImage img && !ImageAnalyzer.isContentImage img) = false) := by
  intro images
  refine ⟨Nat.zero_le _, Nat.zero_le _, Nat.zero_le _,
    length_filter_add_filter_not _ images, ?_⟩
  intro img
  cases h : ImageAnalyzer.isContentImage img
  · rfl
  · rfl

/-- Claim C8 (counterexample): an image with `naturalWidth = 300` and alt
text longer than 10 characters is NOT always classified content: with
`naturalHeight = 30` the 50-pixel natural-dimension gate fails and the
image is decorative despite its width and alt text. -/
theorem C8_isContentImage_counterexample :
    ImageAnalyzer.isContentImage
      ⟨300, 30, false, 300, 300, false, false, "A detailed diagram of...", "photo.jpg"⟩ =
      false := by decide

/-- Claim C8 (amended): an image with `naturalWidth = 30` is decorative
regardless of its alt text; and an image with `naturalWidth = 300`, alt
text longer than 10 characters, whose `naturalHeight` also passes the
50-pixel gate, which sits outside non-content areas and is visibly
rendered, is content. -/
theorem C8_isContentImage_amended :
    (∀ img : ImageAnalyzer.ImgElem, img.naturalWidth = 30 →
      ImageAnalyzer.isContentImage img = false) ∧
    (∀ img : ImageAnalyzer.ImgElem,
      img.naturalWidth = 300 → 50 ≤ img.naturalHeight →
      img.inNonContentArea = false →
      0 < img.rectWidth → 0 < img.rectHeight →
      img.displayNone = false → img.visibilityHidden = false →
      10 < img.alt.length →
      ImageAnalyzer.isContentImage img = true) := by
  constructor
  · intro img hw
    unfold ImageAnalyzer.isContentImage
    rw [if_pos]
    rw [hw]
    simp
  · intro img hw hh hna hrw hrh hdn hvh halt
    unfold ImageAnalyzer.isContentImage
    rw [if_neg (by rw [hw]; simp; omega)]
    rw [if_neg (by rw [hna]; simp)]
    have hne : (img.alt == "") = false := by
      rw [beq_eq_false_iff_ne]
      intro he
      rw [he] at halt
      exact absurd halt (by decide)
    simp only [hne, hdn, hvh, Bool.not_false, decide_eq_true hrw, decide_eq_true hrh,
      decide_eq_true halt, Bool.and_true, Bool.true_and, Bool.true_or, Bool.and_self]

/-- Witness for the amended C8 at two concrete images. -/
theorem C8_isContentImage_amended_witness :
    ImageAnalyzer.isContentImage
      ⟨30, 300, false, 300, 300, false, false, "A detailed diagram of...", "photo.jpg"⟩ = false ∧
    ImageAnalyzer.isContentImage
      ⟨300, 300, false, 300, 300, false, false, "A detailed diagram of...", "photo.jpg"⟩ = true :=
  ⟨C8_isContentImage_amended.1 _ rfl,
   C8_isContentImage_amended.2 _ rfl (by decide) rfl (by decide) (by decide) rfl rfl
     (by decide)⟩

/-!
## TextAnalyzer

Shallow embedding of `textAnalyzer.ts` over a small DOM model: a tree of
elements (tag, id, class list, `role` attribute, children) and text nodes.
`querySelector` over the comma-joined selector list is the first node in
pre-order matching any listed selector; removal of the excluded selectors
deletes every matching descendant subtree (removing a subtree also removes
everything nested in it, so iterating selector-by-selector as the source
does yields the same final tree).  `innerText` is modeled as the text-node
contents joined with single spaces at node boundaries. -/

inductive Node where
  | elem (tag : String) (idAttr : String) (classes : List String) (role : String)
      (children : List Node)
  | txt (s : String)
deriving Repr

/-- The selector forms used by the analyzer: tag, `.class`, `#id`,
`[role="main"]`. -/
inductive Sel where
  | tag (t : String)
  | cls (c : String)
  | idSel (i : String)
  | roleMain
deriving Repr

def matchesSel (n : Node) : Sel → Bool
  | .tag t => match n with
    | .elem t' _ _ _ _ => t' == t
    | .txt _ => false
  | .cls c => match n with
    | .elem _ _ cs _ _ => cs.contains c
    | .txt _ => false
  | .idSel i => match n with
    | .elem _ i' _ _ _ => i' == i
    | .txt _ => false
  | .roleMain => match n with
    | .elem _ _ _ r _ => r == "main"
    | .txt _ => false

def matchesAny (n : Node) (sels : List Sel) : Bool := sels.any (matchesSel n)

mutual
/-- `querySelector` with a comma-joined selector list: first match in
pre-order. -/
def findFirst (sels : List Sel) : Node → Option Node
  | .txt _ => none
  | .elem t i c r cs =>
    if matchesAny (.elem t i c r cs) sels then some (.elem t i c r cs)
    else findFirstL sels cs
def findFirstL (sels : List Sel) : List Node → Option Node
  | [] => none
  | n :: ns =>
    match findFirst sels n with
    | some m => some m
    | none => findFirstL sels ns
end

mutual
/-- `querySelectorAll(sel).forEach(el => el.remove())` over every exclude
selector, on the cloned subtree: drop every descendant matching any of
them. -/
def removeEx (sels : List Sel) : Node → Node
  | .txt s => .txt s
  | .elem t i c r cs => .elem t i c r (removeExL sels cs)
def removeExL (sels : List Sel) : List Node → List Node
  | [] => []
  | n :: ns =>
    if matchesAny n sels then removeExL sels ns
    else removeEx sels n :: removeExL sels ns
end

mutual
/-- `innerText`, modeled as text-node contents joined with single spaces. -/
def innerText : Node → String
  | .txt s => s
  | .elem _ _ _ _ cs => innerTextL cs
def innerTextL : List Node → String
  | [] => ""
  | [n] => innerText n
  | n :: ns => innerText n ++ " " ++ innerTextL ns
end

/-- The `contentSelectors` list of `textAnalyzer.ts`. -/
def contentSelList : List Sel :=
  [.tag "main", .tag "article", .roleMain, .cls "content", .cls "main-content",
   .cls "post-content", .cls "entry-content", .idSel "content", .idSel "main"]

/-- The `excludeSelectors` list of `textAnalyzer.ts`. -/
def excludeSelList : List Sel :=
  [.tag "nav", .tag "header", .tag "footer", .tag "aside", .tag "script", .tag "style",
   .cls "nav", .cls "header", .cls "footer", .cls "sidebar", .cls "menu",
   .cls "advertisement", .cls "ad", .cls "banner"]

/-- Model of the Unicode letter class `\p{L}` used by the `/\p{L}+/gu` and
`/[^\p{L}\s]/gu` regexes, exact on the code-point ranges it covers: ASCII
letters, Latin-1 letters (192–255 minus × 215 and ÷ 247), Greek letters
(913–969 minus the unassigned 930), the Russian Cyrillic block
(1040–1103), and the CJK Unified block (19968–40908).  Characters outside
these ranges are treated as non-letters by the model. -/
def isUL (c : Char) : Bool :=
  (decide (65 ≤ c.toNat) && decide (c.toNat ≤ 90)) ||
  (decide (97 ≤ c.toNat) && decide (c.toNat ≤ 122)) ||
  (decide (192 ≤ c.toNat) && decide (c.toNat ≤ 255) &&
    !(c.toNat == 215) && !(c.toNat == 247)) ||
  (decide (913 ≤ c.toNat) && decide (c.toNat ≤ 969) && !(c.toNat == 930)) ||
  (decide (1040 ≤ c.toNat) && decide (c.toNat ≤ 1103)) ||
  (decide (19968 ≤ c.toNat) && decide (c.toNat ≤ 40908))

/-- `replace(/\s+/g, ' ')`: each maximal whitespace run becomes one space. -/
def collapseWsAux : List Char → Bool → List Char
  | [], _ => []
  | c :: cs, prevWs =>
    if isWsp c then
      (if prevWs then collapseWsAux cs true else ' ' :: collapseWsAux cs true)
    else c :: collapseWsAux cs false

def collapseWs (l : List Char) : List Char := collapseWsAux l false

/-- Count maximal runs of characters satisfying `p` (the length of
`text.match(/X+/gu)` for the class `X`, 0 when there is no match). -/
def countRunsAux (p : Char → Bool) : List Char → Bool → Nat
  | [], _ => 0
  | c :: cs, inRun =>
    if p c then (if inRun then countRunsAux p cs true else countRunsAux p cs true + 1)
    else countRunsAux p cs false

def countRuns (p : Char → Bool) (l : List Char) : Nat := countRunsAux p l false

namespace TextAnalyzer

/-- `TextAnalyzer.cleanText`: keep letters and whitespace, replace everything
else by a space, collapse whitespace runs, trim. -/
def cleanText (s : String) : String :=
  String.mk (trimList (collapseWs (s.data.map (fun c => if isUL c || isWsp c then c else ' '))))

/-- `TextAnalyzer.countContentWords` on the document tree. -/
def countContentWords (doc : Node) : Nat :=
  let contentElement := (findFirst contentSelList doc).getD doc
  let cleanedClone := removeEx excludeSelList contentElement
  let text := innerText cleanedClone
  let cleaned := cleanText text
  if cleaned = "" then 0 else countRuns isUL cleaned.data

/-- `TextAnalyzer.fallbackWordCount`: clean the raw body text and count its
whitespace-separated tokens (`split(/\s+/).length` on the cleaned text,
which is collapsed and trimmed, equals the number of non-whitespace runs;
the empty-string guard returns 0). -/
def fallbackWordCount (bodyText : String) : Nat :=
  let cleaned := cleanText bodyText
  if cleaned = "" then 0 else countRuns (fun c => !isWsp c) cleaned.data

end TextAnalyzer

/-! ### `cleanText` preserves the number of letter runs -/

theorem countRunsAux_map {p : Char → Bool} {f : Char → Char}
    (hf : ∀ c, p (f c) = p c) (l : List Char) :
    ∀ b, countRunsAux p (l.map f) b = countRunsAux p l b := by
  induction l with
  | nil => intro b; rfl
  | cons c cs ih =>
    intro b
    cases hpc : p c <;>
      simp [countRunsAux, hf, hpc, ih]

theorem countRunsAux_collapse {p : Char → Bool} (hsp : p ' ' = false)
    (hw : ∀ c, isWsp c = true → p c = false) (l : List Char) :
    (∀ b, countRunsAux p (collapseWsAux l false) b = countRunsAux p l b) ∧
    countRunsAux p (collapseWsAux l true) false = countRunsAux p l false := by
  induction l with
  | nil => exact ⟨fun _ => rfl, rfl⟩
  | cons c cs ih =>
    constructor
    · intro b
      by_cases hc : isWsp c = true
      · have hpc : p c = false := hw c hc
        simp [collapseWsAux, hc, countRunsAux, hsp, hpc, ih.2]
      · have hc' : isWsp c = false := Bool.not_eq_true _ ▸ hc
        cases hpc : p c <;>
          simp [collapseWsAux, hc', countRunsAux, hpc, ih.1]
    · by_cases hc : isWsp c = true
      · have hpc : p c = false := hw c hc
        simp [collapseWsAux, hc, countRunsAux, hpc, ih.2]
      · have hc' : isWsp c = false := Bool.not_eq_true _ ▸ hc
        cases hpc : p c <;>
          simp [collapseWsAux, hc', countRunsAux, hpc, ih.1]

theorem countRunsAux_dropWhile_wsp {p : Char → Bool}
    (hw : ∀ c, isWsp c = true → p c = false) (l : List Char) :
    countRunsAux p (l.dropWhile isWsp) false = countRunsAux p l false := by
  induction l with
  | nil => rfl
  | cons c cs ih =>
    by_cases hc : isWsp c = true
    · have hpc : p c = false := hw c hc
      simp [List.dropWhile_cons, hc, countRunsAux, hpc, ih]
    · have hc' : isWsp c = false := Bool.not_eq_true _ ▸ hc
      simp [List.dropWhile_cons, hc']

theorem countRunsAux_dropTrailWs {p : Char → Bool}
    (hw : ∀ c, isWsp c = true → p c = false) (l : List Char) :
    ∀ b, countRunsAux p (dropTrailWs l) b = countRunsAux p l b := by
  induction l with
  | nil => intro b; rfl
  | cons c cs ih =>
    intro b
    unfold dropTrailWs
    by_cases hd : (dropTrailWs cs).isEmpty = true
    · rw [if_pos hd]
      have hnil : dropTrailWs cs = [] := by
        cases he : dropTrailWs cs
        · rfl
        · rw [he] at hd
          exact absurd hd (by simp)
      have hcs : ∀ b', countRunsAux p cs b' = 0 := by
        intro b'
        rw [← ih b', hnil]
        rfl
      by_cases hc : isWsp c = true
      · have hpc : p c = false := hw c hc
        simp [hc, countRunsAux, hpc, hcs]
      · have hc' : isWsp c = false := Bool.not_eq_true _ ▸ hc
        cases hpc : p c <;>
          simp [hc', countRunsAux, hpc, hcs]
    · rw [if_neg hd]
      cases hpc : p c <;>
        simp [countRunsAux, hpc, ih]

theorem isWsp_isUL_false {c : Char} (h : isWsp c = true) : isUL c = false := by
  simp only [isWsp, Bool.or_eq_true, beq_iff_eq] at h
  have hn : c.toNat = 32 ∨ c.toNat = 9 ∨ c.toNat = 10 ∨ c.toNat = 13 ∨
      c.toNat = 11 ∨ c.toNat = 12 ∨ c.toNat = 160 := by omega
  rcases hn with h' | h' | h' | h' | h' | h' | h' <;> simp [isUL, h']

theorem isUL_cleanChar (c : Char) :
    isUL (if isUL c || isWsp c then c else ' ') = isUL c := by
  by_cases h : (isUL c || isWsp c) = true
  · rw [if_pos h]
  · rw [if_neg h]
    have hc : isUL c = false := by
      rcases Bool.or_eq_false_iff.mp (Bool.not_eq_true _ ▸ h) with ⟨h1, _⟩
      exact h1
    rw [hc]
    decide

/-- The full `cleanText` pipeline preserves the number of letter runs. -/
theorem countRuns_cleanText (s : String) :
    countRuns isUL (TextAnalyzer.cleanText s).data =
      countRuns isUL s.data := by
  have hW : ∀ c, isWsp c = true → isUL c = false := fun c h => isWsp_isUL_false h
  show countRunsAux isUL
    (dropTrailWs ((collapseWsAux (s.data.map
      (fun c => if isUL c || isWsp c then c else ' ')) false).dropWhile isWsp)) false =
    countRunsAux isUL s.data false
  rw [countRunsAux_dropTrailWs hW]
  rw [countRunsAux_dropWhile_wsp hW]
  rw [(countRunsAux_collapse (by decide) hW _).1]
  rw [countRunsAux_map isUL_cleanChar]

/-- The nav/main fixture `<body><nav>Menu</nav><main>Hello world!</main></body>`. -/
def navMainFixture : Node :=
  .elem "body" "" [] "" [.elem "nav" "" [] "" [.txt "Menu"],
    .elem "main" "" [] "" [.txt "Hello world!"]]

/-- Claim C7: `countContentWords` counts maximal runs of Unicode letters in
the visible text of the selected main-content element after the excluded
subtrees are removed (the cleaning pipeline neither merges nor splits
letter runs); on the nav/main fixture the selected content is the `<main>`
element, whose text "Hello world!" excludes the nav text, and the count is
exactly 2; non-ASCII letters count (Greek text "αβγ δε" gives 2). -/
theorem C7_countContentWords_letter_runs :
    (∀ doc : Node, TextAnalyzer.countContentWords doc =
      countRuns isUL
        (innerText (removeEx excludeSelList ((findFirst contentSelList doc).getD doc))).data) ∧
    TextAnalyzer.countContentWords navMainFixture = 2 ∧
    innerText (removeEx excludeSelList
      ((findFirst contentSelList navMainFixture).getD navMainFixture)) = "Hello world!" ∧
    TextAnalyzer.countContentWords
      (.elem "body" "" [] "" [.elem "main" "" [] "" [.txt "αβγ δε"]]) = 2 := by
  refine ⟨?_, by decide, by decide, by decide⟩
  intro doc
  unfold TextAnalyzer.countContentWords
  dsimp only
  by_cases hc : TextAnalyzer.cleanText
      (innerText (removeEx excludeSelList ((findFirst contentSelList doc).getD doc))) = ""
  · rw [if_pos hc]
    have h2 := countRuns_cleanText
      (innerText (removeEx excludeSelList ((findFirst contentSelList doc).getD doc)))
    rw [hc] at h2
    exact h2
  · rw [if_neg hc]
    exact countRuns_cleanText _

/-!
## Error-handling wrappers (Claim C5)

Each analyzer's public entry point is a `try`/`catch`.  The embedding makes
the possibility of a thrown DOM exception inside the `try` block explicit
as an `Except` input: `.error` is a throw, `.ok` carries the data the
non-throwing run reads.
-/

namespace LinkAnalyzer

/-- The catch at `countContentLinks` returns all-zero counts. -/
def countContentLinksSafe : Except Unit (List LinkElem × String) → LinkCounts
  | .error _ => ⟨0, 0, 0⟩
  | .ok x => countContentLinks x.1 x.2

end LinkAnalyzer

namespace ImageAnalyzer

/-- The catch at `countContentImages` returns all-zero counts. -/
def countContentImagesSafe : Except Unit (List ImgElem) → ImageCounts
  | .error _ => ⟨0, 0, 0⟩
  | .ok imgs => countContentImages imgs

end ImageAnalyzer

namespace TextAnalyzer

/-- The catch at `countContentWords` does NOT return zero: it calls
`fallbackWordCount` on `document.body.innerText`. -/
def countContentWordsSafe : Except Unit Node → String → Nat
  | .ok doc, _ => countContentWords doc
  | .error _, bodyText => fallbackWordCount bodyText

end TextAnalyzer

/-- Claim C5 (counterexample): on an internal failure the text analyzer does
not return the zero-valued result: with body text "hello world" the catch
branch returns the fallback count 2. -/
theorem C5_text_failure_nonzero_counterexample :
    TextAnalyzer.countContentWordsSafe (Except.error ()) "hello world" ≠ 0 := by decide

/-- Claim C5 (amended): every analyzer entry point is total; LinkAnalyzer and
ImageAnalyzer return all-zero counts both on an internal failure and on a
document with no matching elements; TextAnalyzer never propagates but on
internal failure returns the whitespace-token fallback count of the
unfiltered body text — that fallback can be nonzero (the counterexample),
and it is 0 when the body text cleans to nothing: on the empty body text
and equally on nonempty letter-free text such as "123 !!!" — and
`countContentWords` returns 0 on a document with no matching elements. -/
theorem C5_fail_soft_amended :
    (∀ e : Unit, LinkAnalyzer.countContentLinksSafe (Except.error e) = ⟨0, 0, 0⟩) ∧
    (∀ d : String, LinkAnalyzer.countContentLinks [] d = ⟨0, 0, 0⟩) ∧
    (∀ e : Unit, ImageAnalyzer.countContentImagesSafe (Except.error e) = ⟨0, 0, 0⟩) ∧
    ImageAnalyzer.countContentImages [] = ⟨0, 0, 0⟩ ∧
    (∀ (e : Unit) (bodyText : String),
      TextAnalyzer.countContentWordsSafe (Except.error e) bodyText =
        TextAnalyzer.fallbackWordCount bodyText) ∧
    TextAnalyzer.fallbackWordCount "" = 0 ∧
    TextAnalyzer.fallbackWordCount "123 !!!" = 0 ∧
    TextAnalyzer.countContentWords (.elem "body" "" [] "" []) = 0 :=
  ⟨fun _ => rfl, fun _ => rfl, fun _ => rfl, rfl, fun _ _ => rfl, rfl, by decide, by decide⟩

/-!
## NavigationHandler (Claim C9)
-/

namespace NavigationHandler

/-- The mutable state `NavigationHandler` keeps for deduplication:
`private static lastUrl`. -/
structure NavState where
  lastUrl : String
deriving Repr, DecidableEq

/-- The debounce callback of `NavigationHandler.handleNavigation` at timer
expiry; the returned number counts `sendPageMetrics` emissions. -/
def handleNavigationExpiry (s : NavState) (newUrl : String) : NavState × Nat :=
  if URLNormalizer.shouldRecordNewVisit s.lastUrl newUrl then (⟨newUrl⟩, 1) else (s, 0)

end NavigationHandler

/-- Claim C9 (counterexample): after an accepted navigation the stored URL is
the raw new URL, not its normalized form — "https://WWW.A.com/x?q=1" is
stored verbatim and differs from its normalization "https://a.com/x". -/
theorem C9_stored_url_not_normalized_counterexample :
    (NavigationHandler.handleNavigationExpiry ⟨"https://b.com/"⟩
        "https://WWW.A.com/x?q=1").1.lastUrl = "https://WWW.A.com/x?q=1" ∧
    (NavigationHandler.handleNavigationExpiry ⟨"https://b.com/"⟩
        "https://WWW.A.com/x?q=1").1.lastUrl ≠
      URLNormalizer.normalizeUrl "https://WWW.A.com/x?q=1" :=
  ⟨by decide, by decide⟩

/-- Claim C9 (amended): at debounce-timer expiry, an accepted transition
(`shouldRecordNewVisit` true against the stored URL) overwrites the stored
URL with the raw new URL and emits exactly one extraction; a rejected
transition leaves the state unchanged and emits nothing; the only
deduplication state is this single stored URL, kept in raw form and
normalized only at comparison time. -/
theorem C9_navigation_transitions_amended :
    (∀ (s : NavigationHandler.NavState) (newUrl : String),
      URLNormalizer.shouldRecordNewVisit s.lastUrl newUrl = true →
      NavigationHandler.handleNavigationExpiry s newUrl = (⟨newUrl⟩, 1)) ∧
    (∀ (s : NavigationHandler.NavState) (newUrl : String),
      URLNormalizer.shouldRecordNewVisit s.lastUrl newUrl = false →
      NavigationHandler.handleNavigationExpiry s newUrl = (s, 0)) := by
  constructor
  · intro s u h
    unfold NavigationHandler.handleNavigationExpiry
    rw [if_pos h]
  · intro s u h
    unfold NavigationHandler.handleNavigationExpiry
    rw [if_neg (by rw [h]; simp)]

/-- Witness for the amended C9: one accepted and one rejected transition. -/
theorem C9_navigation_transitions_amended_witness :
    (URLNormalizer.shouldRecordNewVisit "https://b.com/" "https://a.com/x" = true ∧
      NavigationHandler.handleNavigationExpiry ⟨"https://b.com/"⟩ "https://a.com/x" =
        (⟨"https://a.com/x"⟩, 1)) ∧
    (URLNormalizer.shouldRecordNewVisit "https://a.com/x" "https://a.com/x#frag" = false ∧
      NavigationHandler.handleNavigationExpiry ⟨"https://a.com/x"⟩ "https://a.com/x#frag" =
        (⟨"https://a.com/x"⟩, 0)) :=
  ⟨⟨by decide, C9_navigation_transitions_amended.1 _ _ (by decide)⟩,
   ⟨by decide, C9_navigation_transitions_amended.2 _ _ (by decide)⟩⟩

/-- Claim C1: `shouldRecordNewVisit(oldUrl, newUrl)` is true iff the
normalized forms of the two URLs are different strings; in particular it is
false on any identical pair, false on a pair differing only in `www.`, query
and fragment, and true on genuinely different paths. -/
theorem C1_shouldRecordNewVisit_iff_normalized_differ :
    (∀ oldUrl newUrl : String,
      URLNormalizer.shouldRecordNewVisit oldUrl newUrl = true ↔
        URLNormalizer.normalizeUrl oldUrl ≠ URLNormalizer.normalizeUrl newUrl) ∧
    (∀ u : String, URLNormalizer.shouldRecordNewVisit u u = false) ∧
    URLNormalizer.shouldRecordNewVisit "https://www.a.com/x?q=1" "https://a.com/x#frag" = false ∧
    URLNormalizer.shouldRecordNewVisit "https://a.com/x" "https://a.com/y" = true := by
  refine ⟨?_, ?_, by decide, by decide⟩
  · intro o n
    unfold URLNormalizer.shouldRecordNewVisit
    exact bne_iff_ne
  · intro u
    unfold URLNormalizer.shouldRecordNewVisit
    simp

/-- Claim C2 (counterexample): `normalizeUrl` is not idempotent.  On
"https://www.www.example.com/" the first application strips one leading
`www.` (the regex `^www\.` is non-global), so a second application strips
another and produces a different string. -/
theorem C2_normalizeUrl_not_idempotent_counterexample :
    URLNormalizer.normalizeUrl (URLNormalizer.normalizeUrl "https://www.www.example.com/") ≠
      URLNormalizer.normalizeUrl "https://www.www.example.com/" := by decide

/-- Claim C2 (amended): `normalizeUrl` is the identity on every malformed
input, and it is idempotent on every input whose parsed hostname does not
still begin with `www.` after one leading `www.` has been stripped — the
hostnames of the form `www.www.…` of the counterexample are the only
exception. -/
theorem C2_normalizeUrl_idempotent_amended :
    (∀ u : String, URLNormalizer.noDoubleWww u = true →
      URLNormalizer.normalizeUrl (URLNormalizer.normalizeUrl u) =
        URLNormalizer.normalizeUrl u) ∧
    (∀ u : String, parseURL u.data = none → URLNormalizer.normalizeUrl u = u) := by
  constructor
  · intro u h
    show String.mk (URLNormalizer.normalizeUrlCore (URLNormalizer.normalizeUrlCore u.data)) =
      String.mk (URLNormalizer.normalizeUrlCore u.data)
    exact congrArg String.mk (URLNormalizer.normalizeUrlCore_idem h)
  · intro u h
    unfold URLNormalizer.normalizeUrl URLNormalizer.normalizeUrlCore
    rw [h]

/-- Witness for the amended C2: idempotence at "https://www.a.com/x?q=1"
and identity at the malformed input "notaurl". -/
theorem C2_normalizeUrl_idempotent_amended_witness :
    URLNormalizer.noDoubleWww "https://www.a.com/x?q=1" = true ∧
    URLNormalizer.normalizeUrl (URLNormalizer.normalizeUrl "https://www.a.com/x?q=1") =
      URLNormalizer.normalizeUrl "https://www.a.com/x?q=1" ∧
    parseURL ("notaurl" : String).data = none ∧
    URLNormalizer.normalizeUrl "notaurl" = "notaurl" :=
  ⟨by decide, C2_normalizeUrl_idempotent_amended.1 _ (by decide), by decide,
    C2_normalizeUrl_idempotent_amended.2 _ (by decide)⟩
